import Mathlib

/-!
Verification of `sql/gis/rtree_support.cc`.

A shallow embedding of the R-tree support functions of the spatial index
engine, together with theorems checking the natural-language specification
against the code.

Modelling conventions:
* C `double` values are modelled as `ℚ` wherever the behaviour at stake does
  not involve non-finite values.  Where NaN and ±Infinity matter
  (`mbr_join_area`, `get_mbr_from_store`) doubles are modelled by the
  inductive type `Dbl` below, a rational payload extended with `nan`, `inf`
  and `neginf`.
* A raw coordinate key (`const uchar *mbr` of length `mbr_len = 16 * n`) is
  modelled as the list of its `n` decoded `(min, max)` dimension pairs; the
  byte-order-safe decode (`doubleget`/`float8get`) is treated as given.
* The `dd::Spatial_reference_system *` argument is modelled by an
  `Option SRSQ` (or `Option SRSF` on the `Dbl` side): `none` is the C++
  `nullptr`.  External behaviour supplied by the SRS object
  (`to_radians`, `from_radians`, the geographic `Covered_by` functor and the
  Andoyer geodesic area) is carried as function fields of the structure.
-/

/-- The `rtr_mbr_t` struct: a rectangle given by stored (not necessarily
ordered) bounds. -/
structure RtrMbr where
  xmin : ℚ
  xmax : ℚ
  ymin : ℚ
  ymax : ℚ
deriving DecidableEq

/-- A 4-element coordinate array `double a[4]` as used by `mbr_join`,
`mbr_join_area` and `get_mbr_from_store`: `c0 = a[0] = xmin`,
`c1 = a[1] = xmax`, `c2 = a[2] = ymin`, `c3 = a[3] = ymax`. -/
structure Arr4 (α : Type) where
  c0 : α
  c1 : α
  c2 : α
  c3 : α
deriving DecidableEq

/-- Modelled from the spec: the rational-side view of a
`dd::Spatial_reference_system` (the class itself is outside this file's
sources).  `isCartesian` answers `srs->is_cartesian()`;
`toRad`/`fromRad` are `srs->to_radians`/`srs->from_radians`
(degrees⇄radians conversion); `coveredByGeo` is the geographic
`gis::Covered_by` functor applied to two radian boxes
(min-corner, max-corner of the first box, then of the second). -/
structure SRSQ where
  isCartesian : Bool
  toRad : ℚ → ℚ
  fromRad : ℚ → ℚ
  coveredByGeo : (ℚ × ℚ) → (ℚ × ℚ) → (ℚ × ℚ) → (ℚ × ℚ) → Bool

/-! ## Predicate engine -/

/-- The separating-axis condition that `mbr_intersect_cmp` asserts via
`DBUG_ASSERT` in debug builds (the "old return value" of the function).
It takes no part in the computed result. -/
def intersect_assertion (a b : RtrMbr) : Prop :=
  (b.xmin ≤ a.xmax ∨ b.xmax ≥ a.xmin) ∧ (b.ymin ≤ a.ymax ∨ b.ymax ≥ a.ymin)

/-- Function `mbr_intersect_cmp`: returns `true` unconditionally (the separating-axis
condition is only a debug assertion, never computed into the result). -/
def mbr_intersect_cmp (_srs : Option SRSQ) (_a _b : RtrMbr) : Bool :=
  true

/-- Function `mbr_disjoint_cmp`: the negation of `mbr_intersect_cmp`. -/
def mbr_disjoint_cmp (srs : Option SRSQ) (a b : RtrMbr) : Bool :=
  !mbr_intersect_cmp srs a b

/-- Modelled from the spec: the Cartesian `gis::Covered_by` functor on two
boxes (the functor's implementation is outside this file's sources): the
first box (min corner `(axmin, aymin)`, max corner `(axmax, aymax)`) is
covered by the second iff it is contained axis-wise. -/
def coveredByCart (axmin aymin axmax aymax bxmin bymin bxmax bymax : ℚ) :
    Bool :=
  decide (bxmin ≤ axmin ∧ axmax ≤ bxmax ∧ bymin ≤ aymin ∧ aymax ≤ bymax)

/-- Function `mbr_within_cmp`: decides the legacy inversion flag from the stored
coordinates, normalizes both rectangles (swap min/max as needed), computes
covered-by under the active coordinate model, and inverts the result when
the flag is set. -/
def mbr_within_cmp (srs : Option SRSQ) (a b : RtrMbr) : Bool :=
  let invert : Bool :=
    decide (a.xmin > a.xmax ∧ a.ymin > a.ymax ∧
      ¬(a.xmin = b.xmin ∧ a.ymin = b.ymin ∧ a.xmax = b.xmax ∧
        a.ymax = b.ymax))
  let a_xmin := min a.xmin a.xmax
  let a_ymin := min a.ymin a.ymax
  let a_xmax := max a.xmin a.xmax
  let a_ymax := max a.ymin a.ymax
  let b_xmin := min b.xmin b.xmax
  let b_ymin := min b.ymin b.ymax
  let b_xmax := max b.xmin b.xmax
  let b_ymax := max b.ymin b.ymax
  let result : Bool :=
    match srs with
    | none => coveredByCart a_xmin a_ymin a_xmax a_ymax b_xmin b_ymin
        b_xmax b_ymax
    | some s =>
      if s.isCartesian then
        coveredByCart a_xmin a_ymin a_xmax a_ymax b_xmin b_ymin b_xmax
          b_ymax
      else
        s.coveredByGeo (s.toRad a_xmin, s.toRad a_ymin)
          (s.toRad a_xmax, s.toRad a_ymax)
          (s.toRad b_xmin, s.toRad b_ymin)
          (s.toRad b_xmax, s.toRad b_ymax)
  if invert then !result else result

/-- The specification's description of `within`: covered-by on the
normalized boxes, inverted exactly when `A`'s stored min/max are reversed
on both axes and `A` does not equal `B` in all four stored coordinates. -/
def within_described (srs : Option SRSQ) (a b : RtrMbr) : Bool :=
  let na := RtrMbr.mk (min a.xmin a.xmax) (max a.xmin a.xmax)
    (min a.ymin a.ymax) (max a.ymin a.ymax)
  let nb := RtrMbr.mk (min b.xmin b.xmax) (max b.xmin b.xmax)
    (min b.ymin b.ymax) (max b.ymin b.ymax)
  let base : Bool :=
    match srs with
    | none => coveredByCart na.xmin na.ymin na.xmax na.ymax nb.xmin nb.ymin
        nb.xmax nb.ymax
    | some s =>
      if s.isCartesian then
        coveredByCart na.xmin na.ymin na.xmax na.ymax nb.xmin nb.ymin
          nb.xmax nb.ymax
      else
        s.coveredByGeo (s.toRad na.xmin, s.toRad na.ymin)
          (s.toRad na.xmax, s.toRad na.ymax)
          (s.toRad nb.xmin, s.toRad nb.ymin)
          (s.toRad nb.xmax, s.toRad nb.ymax)
  if a.xmin > a.xmax ∧ a.ymin > a.ymax ∧ a ≠ b then !base else base

/-! ## Merge engine (`mbr_join`) -/

/-- Function `mbr_join` (with `n_dim = 2`): replaces `a` by the smallest rectangle
covering both `a` and `b`.  The `bg::expand` call is, per the spec, the
axis-wise min of mins and max of maxes, taken in radians for a geographic
SRS and converted back to native units afterwards. -/
def mbr_join (srs : Option SRSQ) (a b : Arr4 ℚ) : Arr4 ℚ :=
  match srs with
  | none =>
    Arr4.mk (min a.c0 b.c0) (max a.c1 b.c1) (min a.c2 b.c2) (max a.c3 b.c3)
  | some s =>
    if s.isCartesian then
      Arr4.mk (min a.c0 b.c0) (max a.c1 b.c1) (min a.c2 b.c2)
        (max a.c3 b.c3)
    else
      Arr4.mk (s.fromRad (min (s.toRad a.c0) (s.toRad b.c0)))
        (s.fromRad (max (s.toRad a.c1) (s.toRad b.c1)))
        (s.fromRad (min (s.toRad a.c2) (s.toRad b.c2)))
        (s.fromRad (max (s.toRad a.c3) (s.toRad b.c3)))

/-! ## Raw-key metric engine -/

/-- The `line_mbr_weights` constant of `rtree_area_increase` (the C++
double literal `0.001`, modelled by the rational it denotes). -/
def line_mbr_weights : ℚ := 1 / 1000

/-- One iteration of the `rtree_area_increase` loop: the state is
`(a_area, loc_ab_area, data_round)`; the input is the decoded dimension
pair `((amin, amax), (bmin, bmax))`. -/
def area_increase_step (st : ℚ × ℚ × ℚ) (p : (ℚ × ℚ) × (ℚ × ℚ)) :
    ℚ × ℚ × ℚ :=
  let amin := p.1.1
  let amax := p.1.2
  let bmin := p.2.1
  let bmax := p.2.2
  let area1 := amax - amin
  let a_area := if area1 = 0 then st.1 * line_mbr_weights else st.1 * area1
  let area2 := max amax bmax - min amin bmin
  let loc_ab_area :=
    if area2 = 0 then st.2.1 * line_mbr_weights else st.2.1 * area2
  let data_round :=
    if loc_ab_area = a_area then
      if bmin < amin ∨ bmax > amax then
        st.2.2 * (max amax bmax - amax + (amin - min amin bmin))
      else st.2.2 * area2
    else st.2.2
  (a_area, loc_ab_area, data_round)

/-- Function `rtree_area_increase`: returns the pair `(return value, *ab_area)`.
The two keys are the decoded `(min, max)` dimension pairs of `mbr_a` and
`mbr_b`; the loop walks them in step (`key_len -= keyseg_len`). -/
def rtree_area_increase (_srs : Option SRSQ)
    (mbr_a mbr_b : List (ℚ × ℚ)) : ℚ × ℚ :=
  let st := (mbr_a.zip mbr_b).foldl area_increase_step (1, 1, 1)
  let ret := if st.2.1 = st.1 ∧ st.2.2 ≠ 1 then st.2.2 else st.2.1 - st.1
  (ret, st.2.1)

/-- The specification's description of `areaIncrease`, written as direct
recursion over the dimension pairs: accumulate the `aArea` and `unionArea`
products (substituting the small weight for a zero span), and, on every
dimension where the two running products are exactly equal, accumulate the
compensation term — `(max(amax,bmax) − amax) + (amin − min(amin,bmin))`
when `B`'s bound exceeds `A`'s on that axis, the plain union span
otherwise.  Return the compensation accumulator when the final products
are equal and the accumulator is not `1`, else the difference. -/
def area_increase_described_go :
    List ((ℚ × ℚ) × (ℚ × ℚ)) → ℚ × ℚ × ℚ → ℚ × ℚ × ℚ
  | [], st => st
  | p :: rest, st =>
    let amin := p.1.1
    let amax := p.1.2
    let bmin := p.2.1
    let bmax := p.2.2
    let aSpan := amax - amin
    let unionSpan := max amax bmax - min amin bmin
    let aArea := st.1 * (if aSpan = 0 then line_mbr_weights else aSpan)
    let unionArea :=
      st.2.1 * (if unionSpan = 0 then line_mbr_weights else unionSpan)
    let comp :=
      if unionArea = aArea then
        st.2.2 *
          (if bmin < amin ∨ bmax > amax then
            (max amax bmax - amax) + (amin - min amin bmin)
          else unionSpan)
      else st.2.2
    area_increase_described_go rest (aArea, unionArea, comp)

/-- The final selection of the described `areaIncrease`. -/
def area_increase_described (mbr_a mbr_b : List (ℚ × ℚ)) : ℚ × ℚ :=
  let st := area_increase_described_go (mbr_a.zip mbr_b) (1, 1, 1)
  (if st.2.1 = st.1 ∧ st.2.2 ≠ 1 then st.2.2 else st.2.1 - st.1, st.2.1)

/-- The `rtree_area_overlapping` loop with its early `return 0`. -/
def area_overlapping_go : List ((ℚ × ℚ) × (ℚ × ℚ)) → ℚ → ℚ
  | [], area => area
  | p :: rest, area =>
    let amin := max p.1.1 p.2.1
    let amax := min p.1.2 p.2.2
    if amin > amax then 0 else area_overlapping_go rest (area * (amax - amin))

/-- Function `rtree_area_overlapping`: the product of the per-dimension overlap
spans, or `0` as soon as some dimension's overlap interval is empty. -/
def rtree_area_overlapping (_srs : Option SRSQ)
    (mbr_a mbr_b : List (ℚ × ℚ)) : ℚ :=
  area_overlapping_go (mbr_a.zip mbr_b) 1

/-! ## A double model with non-finite values

`Dbl` models an IEEE-754 binary64 value as far as the claims checked here
need: a rational payload plus `nan`, `inf` and `neginf`.  Arithmetic
follows the IEEE special-value rules; a finite result whose magnitude
exceeds `dblMax` (the exact value of `std::numeric_limits<double>::max()`,
`2^1024 − 2^971`) overflows to the signed infinity.  Rounding of in-range
results is not modelled; no claim checked here depends on it. -/

/-- A double extended with the non-finite values. -/
inductive Dbl where
  | finite (q : ℚ)
  | nan
  | inf
  | neginf
deriving DecidableEq

/-- The exact rational value of `std::numeric_limits<double>::max()`. -/
def dblMax : ℚ := 2 ^ 1024 - 2 ^ 971

/-- C `std::isfinite`. -/
def Dbl.isFinite : Dbl → Bool
  | .finite _ => true
  | _ => false

/-- C `std::isnan`. -/
def Dbl.isNan : Dbl → Bool
  | .nan => true
  | _ => false

/-- Clamp of an exact rational result to the finite double range. -/
def Dbl.ofRat (q : ℚ) : Dbl :=
  if q > dblMax then .inf else if q < -dblMax then .neginf else .finite q

/-- IEEE `<` on doubles: comparisons involving NaN are false. -/
def Dbl.lt : Dbl → Dbl → Bool
  | .nan, _ => false
  | _, .nan => false
  | .neginf, .neginf => false
  | .neginf, _ => true
  | _, .neginf => false
  | .inf, _ => false
  | _, .inf => true
  | .finite a, .finite b => decide (a < b)

/-- IEEE `<=` on doubles: comparisons involving NaN are false. -/
def Dbl.le : Dbl → Dbl → Bool
  | .nan, _ => false
  | _, .nan => false
  | .neginf, _ => true
  | _, .neginf => false
  | _, .inf => true
  | .inf, _ => false
  | .finite a, .finite b => decide (a ≤ b)

/-- C `std::min(a, b)`, i.e. `b < a ? b : a`. -/
def Dbl.minC (a b : Dbl) : Dbl := if Dbl.lt b a then b else a

/-- C `std::max(a, b)`, i.e. `a < b ? b : a`. -/
def Dbl.maxC (a b : Dbl) : Dbl := if Dbl.lt a b then b else a

/-- IEEE subtraction on the `Dbl` model. -/
def Dbl.sub : Dbl → Dbl → Dbl
  | .nan, _ => .nan
  | _, .nan => .nan
  | .inf, .inf => .nan
  | .inf, _ => .inf
  | .neginf, .neginf => .nan
  | .neginf, _ => .neginf
  | .finite _, .inf => .neginf
  | .finite _, .neginf => .inf
  | .finite a, .finite b => Dbl.ofRat (a - b)

/-- IEEE multiplication on the `Dbl` model. -/
def Dbl.mul : Dbl → Dbl → Dbl
  | .nan, _ => .nan
  | _, .nan => .nan
  | .inf, .inf => .inf
  | .inf, .neginf => .neginf
  | .neginf, .inf => .neginf
  | .neginf, .neginf => .inf
  | .inf, .finite b => if b = 0 then .nan else if b > 0 then .inf else .neginf
  | .finite a, .inf => if a = 0 then .nan else if a > 0 then .inf else .neginf
  | .neginf, .finite b =>
    if b = 0 then .nan else if b > 0 then .neginf else .inf
  | .finite a, .neginf =>
    if a = 0 then .nan else if a > 0 then .neginf else .inf
  | .finite a, .finite b => Dbl.ofRat (a * b)

/-- Modelled from the spec: the `Dbl`-side view of a
`dd::Spatial_reference_system`.  `geoArea` is the Andoyer geodesic-area
approximation over the SRS's ellipsoid, applied to a radian box given as
`(min x) (max x) (min y) (max y)`; it and `toRad` are external code. -/
structure SRSF where
  isCartesian : Bool
  toRad : Dbl → Dbl
  geoArea : Dbl → Dbl → Dbl → Dbl → Dbl

/-- Modelled from the spec: `bg::expand` of one box by another — the
axis-wise min of mins and max of maxes (with C `std::min`/`std::max`
comparison semantics on doubles). -/
def expandF (a b : Arr4 Dbl) : Arr4 Dbl :=
  Arr4.mk (Dbl.minC a.c0 b.c0) (Dbl.maxC a.c1 b.c1) (Dbl.minC a.c2 b.c2)
    (Dbl.maxC a.c3 b.c3)

/-- Modelled from the spec: planar `bg::area` of a box,
`(xmax − xmin) · (ymax − ymin)`. -/
def cartAreaF (e : Arr4 Dbl) : Dbl :=
  Dbl.mul (Dbl.sub e.c1 e.c0) (Dbl.sub e.c3 e.c2)

/-- The area computed by `mbr_join_area` before its finiteness wrap:
expand `a` by `b` under the active coordinate model and take the area
(planar product, or the geodesic area of the radian box). -/
def mbr_join_area_raw (srs : Option SRSF) (a b : Arr4 Dbl) : Dbl :=
  match srs with
  | none => cartAreaF (expandF a b)
  | some s =>
    if s.isCartesian then cartAreaF (expandF a b)
    else
      s.geoArea
        (Dbl.minC (s.toRad a.c0) (s.toRad b.c0))
        (Dbl.maxC (s.toRad a.c1) (s.toRad b.c1))
        (Dbl.minC (s.toRad a.c2) (s.toRad b.c2))
        (Dbl.maxC (s.toRad a.c3) (s.toRad b.c3))

/-- Function `mbr_join_area`: the raw joined-box area with non-finite results
replaced by `std::numeric_limits<double>::max()`. -/
def mbr_join_area (srs : Option SRSF) (a b : Arr4 Dbl) : Dbl :=
  let area := mbr_join_area_raw srs a b
  if area.isFinite then area else .finite dblMax

/-! ## Rectangle extraction (`get_mbr_from_store`) -/

/-- The full-domain rectangle substituted for an empty geometry:
`[lowest, max] × [lowest, max]`. -/
def fullDomainMbr : Arr4 Dbl :=
  Arr4.mk (.finite (-dblMax)) (.finite dblMax) (.finite (-dblMax))
    (.finite dblMax)

/-- Function `get_mbr_from_store`.  Modelled from the spec: the external
`gis::parse_wkb` / `gis::box_envelope` pipeline (and the
`from_radians` conversion of a geographic envelope) is summarised by the
`env` argument — `none` models a parse failure (the C++ `return -1`), and
`some m` the four envelope coordinates written to `mbr[0..3]`
(`xmin, xmax, ymin, ymax`) before the NaN check.  The function returns
`none` for status `-1` and `some` of the output rectangle for status `0`;
the empty-geometry substitution triggers on `std::isnan(mbr[0])` alone. -/
def get_mbr_from_store (env : Option (Arr4 Dbl)) : Option (Arr4 Dbl) :=
  match env with
  | none => none
  | some m => if m.c0.isNan then some fullDomainMbr else some m

/-! ## Theorems -/

/-- Claim C1: for every reference system (including absent) and every pair
of rectangles, `mbr_intersect_cmp` returns `true`; the separating-axis
condition is only a debug assertion, never computed into the result. -/
theorem mbr_intersect_cmp_always_true (srs : Option SRSQ) (a b : RtrMbr) :
    mbr_intersect_cmp srs a b = true := rfl

/-- Claim C8: the reference-system argument has no influence on
`rtree_area_increase` or `rtree_area_overlapping`. -/
theorem raw_key_metrics_srs_noninterference (srs1 srs2 : Option SRSQ)
    (a b : List (ℚ × ℚ)) :
    rtree_area_increase srs1 a b = rtree_area_increase srs2 a b ∧
      rtree_area_overlapping srs1 a b = rtree_area_overlapping srs2 a b :=
  ⟨rfl, rfl⟩

/-- Claim C9: `mbr_join` is commutative in its resulting rectangle, which
is the axis-wise min of mins and max of maxes of the two inputs. -/
theorem mbr_join_commutes (srs : Option SRSQ) (a b : Arr4 ℚ) :
    mbr_join srs a b = mbr_join srs b a ∧
      mbr_join none a b =
        Arr4.mk (min a.c0 b.c0) (max a.c1 b.c1) (min a.c2 b.c2)
          (max a.c3 b.c3) := by
  refine ⟨?_, rfl⟩
  cases srs with
  | none => simp [mbr_join, min_comm, max_comm]
  | some s =>
    by_cases hc : s.isCartesian <;> simp [mbr_join, hc, min_comm, max_comm]

/-- Claim C10: the empty-geometry substitution in `get_mbr_from_store` is
decided by `mbr[0]` alone: a NaN `xmin` yields the full-domain rectangle
regardless of the other coordinates, and a non-NaN `xmin` passes the
envelope through unchanged (NaN in other coordinates included), with
success status. -/
theorem get_mbr_from_store_nan_check_only_xmin (m : Arr4 Dbl) :
    get_mbr_from_store (some m) =
      some (if m.c0.isNan then fullDomainMbr else m) := by
  by_cases h : m.c0.isNan <;> simp [get_mbr_from_store, h]

/-- Claim C6: `mbr_join_area` always returns a finite value, and whenever
the computed area of the joined box is non-finite the returned value is
the largest finite double. -/
theorem mbr_join_area_always_finite (srs : Option SRSF) (a b : Arr4 Dbl) :
    (mbr_join_area srs a b).isFinite = true ∧
      ((mbr_join_area_raw srs a b).isFinite = false →
        mbr_join_area srs a b = .finite dblMax) := by
  constructor
  · simp only [mbr_join_area]
    by_cases h : (mbr_join_area_raw srs a b).isFinite = true
    · rw [if_pos h]; exact h
    · rw [if_neg h]; rfl
  · intro h
    simp only [mbr_join_area]
    rw [if_neg (by simp [h])]

/-- Witness for C6: joining two boxes with an infinite upper corner gives
a non-finite raw area, and the returned area is the largest finite
double. -/
theorem mbr_join_area_always_finite_witness :
    (mbr_join_area_raw none (Arr4.mk (.finite 0) .inf (.finite 0) .inf)
        (Arr4.mk (.finite 0) .inf (.finite 0) .inf)).isFinite = false ∧
      mbr_join_area none (Arr4.mk (.finite 0) .inf (.finite 0) .inf)
        (Arr4.mk (.finite 0) .inf (.finite 0) .inf) = .finite dblMax := by
  have hraw : (mbr_join_area_raw none
      (Arr4.mk (.finite 0) .inf (.finite 0) .inf)
      (Arr4.mk (.finite 0) .inf (.finite 0) .inf)).isFinite = false := by
    simp [mbr_join_area_raw, cartAreaF, expandF, Dbl.minC, Dbl.maxC, Dbl.lt,
      Dbl.sub, Dbl.mul, Dbl.isFinite]
  exact ⟨hraw, (mbr_join_area_always_finite none _ _).2 hraw⟩

/-- Over two identical keys whose spans are all nonzero, the
`rtree_area_increase` loop keeps all three accumulators equal to the
running product of the spans. -/
theorem area_increase_fold_self (k : List (ℚ × ℚ)) (c : ℚ)
    (h : ∀ p ∈ k, p.2 - p.1 ≠ 0) :
    (k.zip k).foldl area_increase_step (c, c, c) =
      (c * (k.map fun p => p.2 - p.1).prod,
       c * (k.map fun p => p.2 - p.1).prod,
       c * (k.map fun p => p.2 - p.1).prod) := by
  revert h
  induction k generalizing c with
  | nil => intro h; simp
  | cons p rest ih =>
    intro h
    have hp : p.2 - p.1 ≠ 0 := h p (by simp)
    have hstep : area_increase_step (c, c, c) (p, p) =
        (c * (p.2 - p.1), c * (p.2 - p.1), c * (p.2 - p.1)) := by
      simp [area_increase_step, hp]
    simp only [List.zip_cons_cons, List.foldl_cons, hstep, List.map_cons,
      List.prod_cons]
    rw [ih _ (fun q hq => h q (by simp [hq]))]
    simp [mul_assoc]

/-- Claim C2 (amended): over identical raw keys whose spans are all
nonzero, `rtree_area_increase` returns a delta equal to the product of the
spans when that product is not `1` (and `0` when it is), and the union
area output is the product of the spans. -/
theorem rtree_area_increase_identical_keys (srs : Option SRSQ)
    (k : List (ℚ × ℚ)) (h : ∀ p ∈ k, p.2 - p.1 ≠ 0) :
    rtree_area_increase srs k k =
      (if (k.map fun p => p.2 - p.1).prod = 1 then 0
       else (k.map fun p => p.2 - p.1).prod,
       (k.map fun p => p.2 - p.1).prod) := by
  unfold rtree_area_increase
  rw [area_increase_fold_self k 1 h]
  simp only [one_mul]
  by_cases h1 : (k.map fun p => p.2 - p.1).prod = 1
  · simp [h1]
  · simp [h1]

/-- Counterexample to claim C2 as stated: the raw key with the single
dimension pair `(0, 2)` has a nonzero span, yet `rtree_area_increase` on
two copies of it returns delta `2`, not `0`. -/
theorem rtree_area_increase_identical_counterexample :
    (∀ p ∈ [((0 : ℚ), 2)], p.2 - p.1 ≠ 0) ∧
      (rtree_area_increase none [((0 : ℚ), 2)] [((0 : ℚ), 2)]).1 = 2 ∧
      (2 : ℚ) ≠ 0 := by
  refine ⟨?_, ?_, by norm_num⟩
  · intro p hp
    simp only [List.mem_singleton] at hp
    subst hp
    norm_num
  · norm_num [rtree_area_increase, area_increase_step, line_mbr_weights]

/-- Witness for the amended C2: on the one-dimensional key `(0, 2)` the
function returns delta `2` and union area `2`. -/
theorem rtree_area_increase_identical_keys_witness :
    rtree_area_increase none [((0 : ℚ), 2)] [((0 : ℚ), 2)] = (2, 2) := by
  have h := rtree_area_increase_identical_keys none [((0 : ℚ), 2)]
    (by intro p hp; simp only [List.mem_singleton] at hp; subst hp; norm_num)
  simpa using h

/-- The described recursion and the source loop of `areaIncrease` agree
from any accumulator state. -/
theorem area_increase_go_eq_foldl (l : List ((ℚ × ℚ) × (ℚ × ℚ)))
    (st : ℚ × ℚ × ℚ) :
    area_increase_described_go l st = l.foldl area_increase_step st := by
  induction l generalizing st with
  | nil => rfl
  | cons p rest ih =>
    rw [List.foldl_cons, ← ih]
    show area_increase_described_go rest _ = area_increase_described_go rest _
    congr 1
    simp [area_increase_step, mul_ite]

/-- Claim C3: `rtree_area_increase` computes exactly the described
precision-compensation algorithm — per dimension the compensation
accumulator is multiplied (only when the running products are exactly
equal) by `(max(amax,bmax) − amax) + (amin − min(amin,bmin))` when `B`'s
bound exceeds `A`'s on that axis and by the plain union span otherwise,
and the returned delta is the compensation accumulator exactly when the
final products are equal and the accumulator differs from `1`, else the
difference of the products. -/
theorem rtree_area_increase_matches_description (srs : Option SRSQ)
    (a b : List (ℚ × ℚ)) :
    rtree_area_increase srs a b = area_increase_described a b := by
  unfold rtree_area_increase area_increase_described
  rw [area_increase_go_eq_foldl]

/-- From any accumulator, the `rtree_area_overlapping` loop returns the
accumulator times the product of the overlap spans when every dimension
overlaps, and `0` otherwise. -/
theorem area_overlapping_go_eq (l : List ((ℚ × ℚ) × (ℚ × ℚ))) (acc : ℚ) :
    area_overlapping_go l acc =
      if ∀ p ∈ l, max p.1.1 p.2.1 ≤ min p.1.2 p.2.2 then
        acc * (l.map fun p => min p.1.2 p.2.2 - max p.1.1 p.2.1).prod
      else 0 := by
  induction l generalizing acc with
  | nil => simp [area_overlapping_go]
  | cons p rest ih =>
    have hstep : area_overlapping_go (p :: rest) acc =
        (if max p.1.1 p.2.1 > min p.1.2 p.2.2 then 0
         else area_overlapping_go rest
           (acc * (min p.1.2 p.2.2 - max p.1.1 p.2.1))) := rfl
    rw [hstep]
    by_cases hp : max p.1.1 p.2.1 ≤ min p.1.2 p.2.2
    · rw [if_neg (not_lt.mpr hp), ih]
      simp only [List.forall_mem_cons, List.map_cons, List.prod_cons, hp,
        true_and]
      by_cases hr : ∀ q ∈ rest, max q.1.1 q.2.1 ≤ min q.1.2 q.2.2
      · rw [if_pos hr, if_pos hr, mul_assoc]
      · rw [if_neg hr, if_neg hr]
    · have hnall : ¬∀ q ∈ p :: rest, max q.1.1 q.2.1 ≤ min q.1.2 q.2.2 := by
        intro hall
        exact hp (hall p (by simp))
      rw [if_pos (not_le.mp hp), if_neg hnall]

/-- Claim C5: `rtree_area_overlapping` returns `0` when some dimension's
overlap interval is empty and otherwise the product of the overlap spans;
when `A`'s interval is contained in `B`'s on every dimension the result is
the product of `A`'s spans. -/
theorem rtree_area_overlapping_characterized (srs : Option SRSQ)
    (a b : List (ℚ × ℚ)) :
    (rtree_area_overlapping srs a b =
      if ∀ p ∈ a.zip b, max p.1.1 p.2.1 ≤ min p.1.2 p.2.2 then
        ((a.zip b).map fun p => min p.1.2 p.2.2 - max p.1.1 p.2.1).prod
      else 0) ∧
      ((∀ p ∈ a.zip b, p.1.1 ≤ p.1.2 ∧ p.2.1 ≤ p.1.1 ∧ p.1.2 ≤ p.2.2) →
        rtree_area_overlapping srs a b =
          ((a.zip b).map fun p => p.1.2 - p.1.1).prod) := by
  have h1 : rtree_area_overlapping srs a b =
      if ∀ p ∈ a.zip b, max p.1.1 p.2.1 ≤ min p.1.2 p.2.2 then
        ((a.zip b).map fun p => min p.1.2 p.2.2 - max p.1.1 p.2.1).prod
      else 0 := by
    unfold rtree_area_overlapping
    rw [area_overlapping_go_eq]
    simp only [one_mul]
  refine ⟨h1, fun hc => ?_⟩
  have hcond : ∀ p ∈ a.zip b, max p.1.1 p.2.1 ≤ min p.1.2 p.2.2 := by
    intro p hp
    obtain ⟨ha, hb, hcc⟩ := hc p hp
    rw [max_eq_left hb, min_eq_left hcc]
    exact ha
  rw [h1, if_pos hcond]
  refine congrArg List.prod (List.map_congr_left ?_)
  intro p hp
  obtain ⟨ha, hb, hcc⟩ := hc p hp
  rw [max_eq_left hb, min_eq_left hcc]

/-- Witness for C5: key `A = (5, 10)` contained in `B = (0, 20)` gives
overlap area `5`, the span of `A`. -/
theorem rtree_area_overlapping_characterized_witness :
    rtree_area_overlapping none [((5 : ℚ), 10)] [((0 : ℚ), 20)] = 5 := by
  have h := (rtree_area_overlapping_characterized none [((5 : ℚ), 10)]
      [((0 : ℚ), 20)]).2 ?_
  · norm_num at h
    exact h
  · intro p hp
    simp only [List.zip_cons_cons, List.zip_nil_right, List.mem_singleton]
      at hp
    subst hp
    norm_num

/-- Claim C4: `mbr_within_cmp` equals its description — covered-by on the
min/max-normalized boxes, inverted exactly when `A`'s stored bounds are
reversed on both axes and `A` differs from `B` in some stored
coordinate. -/
theorem mbr_within_cmp_matches_description (srs : Option SRSQ)
    (a b : RtrMbr) :
    mbr_within_cmp srs a b = within_described srs a b := by
  obtain ⟨ax, axx, ay, ayy⟩ := a
  obtain ⟨bx, bxx, b1, byy⟩ := b
  have hiff : (ax > axx ∧ ay > ayy ∧
      ¬(ax = bx ∧ ay = b1 ∧ axx = bxx ∧ ayy = byy)) ↔
      (ax > axx ∧ ay > ayy ∧
        RtrMbr.mk ax axx ay ayy ≠ RtrMbr.mk bx bxx b1 byy) := by
    simp only [ne_eq, RtrMbr.mk.injEq]
    tauto
  simp only [mbr_within_cmp, within_described, decide_eq_true_eq]
  exact if_congr hiff rfl rfl

/-- Claim C7: on a successfully parsed record, under the envelope contract
(all-NaN envelope for an empty geometry, ordered non-NaN bounds
otherwise), `get_mbr_from_store` substitutes the full-domain rectangle for
an all-NaN envelope — returning no NaN — and every returned rectangle
satisfies `xmin ≤ xmax` and `ymin ≤ ymax`. -/
theorem get_mbr_from_store_success_invariant (x0 x1 y0 y1 : Dbl)
    (_hnan : x0.isNan = true →
      x1.isNan = true ∧ y0.isNan = true ∧ y1.isNan = true)
    (hord : x0.isNan = false →
      Dbl.le x0 x1 = true ∧ Dbl.le y0 y1 = true) :
    ∃ r, get_mbr_from_store (some (Arr4.mk x0 x1 y0 y1)) = some r ∧
      (x0.isNan = true ∧ x1.isNan = true ∧ y0.isNan = true ∧
          y1.isNan = true →
        r = fullDomainMbr ∧ r.c0.isNan = false ∧ r.c1.isNan = false ∧
          r.c2.isNan = false ∧ r.c3.isNan = false) ∧
      Dbl.le r.c0 r.c1 = true ∧ Dbl.le r.c2 r.c3 = true := by
  have hle : Dbl.le (.finite (-dblMax)) (.finite dblMax) = true := by
    have h971 : (2 : ℚ) ^ 971 ≤ (2 : ℚ) ^ 1024 := by
      apply pow_le_pow_right₀ (by norm_num) (by norm_num)
    have hpos : (0 : ℚ) ≤ dblMax := by
      unfold dblMax
      linarith
    simp only [Dbl.le, decide_eq_true_eq]
    linarith
  by_cases h : x0.isNan = true
  · refine ⟨fullDomainMbr, ?_, fun _ => ⟨rfl, rfl, rfl, rfl, rfl⟩, hle, hle⟩
    simp [get_mbr_from_store, h]
  · have h' : x0.isNan = false := by
      cases hx : x0.isNan
      · rfl
      · exact absurd hx h
    obtain ⟨hx, hy⟩ := hord h'
    refine ⟨Arr4.mk x0 x1 y0 y1, ?_, ?_, hx, hy⟩
    · simp [get_mbr_from_store, h']
    · intro hall
      exact absurd hall.1 h

/-- Witness for C7: an all-NaN envelope yields the full-domain rectangle,
whose bounds are ordered on both axes. -/
theorem get_mbr_from_store_success_invariant_witness :
    get_mbr_from_store (some (Arr4.mk Dbl.nan Dbl.nan Dbl.nan Dbl.nan)) =
      some fullDomainMbr ∧
      Dbl.le fullDomainMbr.c0 fullDomainMbr.c1 = true ∧
      Dbl.le fullDomainMbr.c2 fullDomainMbr.c3 = true := by
  obtain ⟨r, hr, hfull, hlex, hley⟩ :=
    get_mbr_from_store_success_invariant Dbl.nan Dbl.nan Dbl.nan Dbl.nan
      (fun _ => ⟨rfl, rfl, rfl⟩) (fun hc => by simp [Dbl.isNan] at hc)
  obtain ⟨hre, -, -, -, -⟩ := hfull ⟨rfl, rfl, rfl, rfl⟩
  subst hre
  exact ⟨hr, hlex, hley⟩
